import Mathlib

/-! Verification development for the Transform stage of the sales ETL pipeline
(`src/Python/etl_pipeline.py`, class `SalesDataETL`, method `transform_sales_data`
together with its nested `categorize_customer`).

Modelling conventions (shallow embedding of the pandas code):

* A DataFrame is a Lean list of rows; a nullable cell is an `Option` value
  (pandas `NaN`/`NaT` is `none`).  Monetary and numeric measure columns are `ℚ`.
* Series arithmetic propagates nulls (`omul`, `osub` below), exactly as
  pandas arithmetic propagates `NaN`.
* `pd.read_sql` yields a `RangeIndex` `0..n-1`, and `dropna` / boolean-mask
  filtering keep the original index labels.  Cleaned rows are therefore carried
  as `(label, row)` pairs, the label being the row's position in the raw table.
  Series arithmetic between two differently indexed frames aligns on those
  labels; this matters for the `profit_margin` line of the source, which
  multiplies `sales_df['quantity_sold']` by `products['cost_price']` without
  any key-based lookup.
* `pd.to_datetime` applied to an already typed date column is the identity
  (an unparseable date aborts the whole run and is outside this model), so the
  date-parsing step of the Cleaner is the identity here; `transaction_date`
  cells are `Option SDate` and a `none` date (`NaT`) survives cleaning.
* `groupby` (default `dropna=True`) drops every row whose grouping key has a
  null component, sorts the group keys ascending, and aggregates each group:
  `sum` skips nulls (an all-null group sums to 0), `count` counts non-null
  cells.
* `sort_values(col, ascending=False)` is modelled the way pandas `nargsort`
  realises it: the rows are reversed, stably argsorted ascending, and the
  resulting order reversed again — a stable descending sort by the column
  that keeps equal-valued rows in their original relative order.  (numpy's
  default sort is insertion sort on small frames and hence stable there;
  the model fixes that stable behaviour.)
* The calendar columns `day_of_week` and `week_of_year`, and the
  `first_purchase` / `last_purchase` / `customer_lifetime` columns of
  `customer_metrics`, involve calendar arithmetic that no claim touches;
  they are omitted from the row records.  All other columns of the source
  are embedded.
-/

/-- A calendar date as stored in a parsed `transaction_date` cell. -/
structure SDate where
  year : Nat
  month : Nat
  day : Nat
deriving DecidableEq, Repr

/-- One row of the raw `sales_transactions` extract (source query, lines 63-76). -/
structure SalesRow where
  transaction_id : Option Nat
  transaction_date : Option SDate
  product_id : Option Nat
  customer_id : Option Nat
  quantity_sold : Option ℚ
  unit_price : Option ℚ
  total_amount : Option ℚ
  sales_rep_id : Option Nat
  region_id : Option Nat
deriving DecidableEq, Repr

/-- One row of the `products` dimension extract (source query, lines 82-93). -/
structure ProductRow where
  product_id : Option Nat
  product_name : Option String
  category_id : Option Nat
  category_name : Option String
  brand : Option String
  cost_price : Option ℚ
  list_price : Option ℚ
deriving DecidableEq, Repr

/-- One row of the `customers` dimension extract (source query, lines 99-109);
`region_name` is already flattened in by the SQL join. -/
structure CustomerRow where
  customer_id : Option Nat
  customer_name : Option String
  customer_type : Option String
  region_id : Option Nat
  region_name : Option String
  signup_date : Option SDate
deriving DecidableEq, Repr

/-- Null-propagating multiplication of two cells (pandas Series `*`). -/
def omul (a b : Option ℚ) : Option ℚ :=
  match a, b with
  | some x, some y => some (x * y)
  | _, _ => none

/-- Null-propagating subtraction of two cells (pandas Series `-`). -/
def osub (a b : Option ℚ) : Option ℚ :=
  match a, b with
  | some x, some y => some (x - y)
  | _, _ => none

/-- Predicate of line 142, `dropna(subset=['transaction_id', 'total_amount'])`:
keep a row iff both cells are non-null. -/
def keepIdAmount (r : SalesRow) : Bool :=
  r.transaction_id.isSome && r.total_amount.isSome

/-- Predicate of line 143, `sales_df[sales_df['total_amount'] > 0]`:
a null compares as not-greater (pandas `NaN > 0` is `False`). -/
def posAmount (r : SalesRow) : Bool :=
  match r.total_amount with
  | some a => decide (0 < a)
  | none => false

/-- Cleaning steps of lines 141-143 on labelled rows: the date parse (identity
on typed dates), the null drop, then the positive-amount filter.  Labels are
the positions in the raw table (pandas keeps index labels through filtering). -/
def cleanLabeled (rows : List SalesRow) : List (Nat × SalesRow) :=
  ((rows.enum.filter fun p => keepIdAmount p.2).filter fun p => posAmount p.2)

/-- The Cleaner's output as a plain table (the labels forgotten). -/
def cleanSales (rows : List SalesRow) : List SalesRow :=
  (cleanLabeled rows).map Prod.snd

/-- `products['cost_price']` read at index label `i` — the value that pandas
index alignment pairs with a sales row whose label is `i` (line 147). -/
def costAt (products : List ProductRow) (i : Nat) : Option ℚ :=
  match products[i]? with
  | some p => p.cost_price
  | none => none

/-- `quarter` as pandas derives it from the month. -/
def quarterOfMonth (m : Nat) : Nat := (m - 1) / 3 + 1

/-- A cleaned transaction row after the derived columns of lines 146-152
(`day_of_week` and `week_of_year` omitted, see the header). -/
structure FeatureRow where
  transaction_id : Option Nat
  transaction_date : Option SDate
  product_id : Option Nat
  customer_id : Option Nat
  quantity_sold : Option ℚ
  unit_price : Option ℚ
  total_amount : Option ℚ
  sales_rep_id : Option Nat
  region_id : Option Nat
  revenue : Option ℚ
  profit_margin : Option ℚ
  year : Option Nat
  month : Option Nat
  quarter : Option Nat
deriving DecidableEq, Repr

/-- Lines 146-152: `revenue = quantity_sold * unit_price`;
`profit_margin = total_amount - quantity_sold * products['cost_price']` where
the cost price is the one pandas aligns by index label; calendar parts from
the date (null date gives null parts). -/
def deriveFeatures (products : List ProductRow) (labeled : List (Nat × SalesRow)) :
    List FeatureRow :=
  labeled.map fun li =>
    { transaction_id := li.2.transaction_id
      transaction_date := li.2.transaction_date
      product_id := li.2.product_id
      customer_id := li.2.customer_id
      quantity_sold := li.2.quantity_sold
      unit_price := li.2.unit_price
      total_amount := li.2.total_amount
      sales_rep_id := li.2.sales_rep_id
      region_id := li.2.region_id
      revenue := omul li.2.quantity_sold li.2.unit_price
      profit_margin := osub li.2.total_amount (omul li.2.quantity_sold (costAt products li.1))
      year := li.2.transaction_date.map SDate.year
      month := li.2.transaction_date.map SDate.month
      quarter := li.2.transaction_date.map fun d => quarterOfMonth d.month }

/-- A transaction row after the product left merge of lines 155-159. -/
structure SalesProdRow extends FeatureRow where
  product_name : Option String
  category_id : Option Nat
  category_name : Option String
  brand : Option String
  cost_price : Option ℚ
  list_price : Option ℚ
deriving DecidableEq, Repr

/-- A fully enriched transaction row after the customer left merge of lines
162-166 (`sales_enhanced`).  The customer side's `region_id` is kept as
`cust_region_id`, standing for the suffixed duplicate column pandas creates
because both frames carry a `region_id`. -/
structure EnrichedRow extends SalesProdRow where
  customer_name : Option String
  customer_type : Option String
  cust_region_id : Option Nat
  region_name : Option String
  signup_date : Option SDate
deriving DecidableEq, Repr

/-- Attach a matched product's attribute columns to a transaction row. -/
def withProduct (r : FeatureRow) (p : ProductRow) : SalesProdRow :=
  { toFeatureRow := r
    product_name := p.product_name
    category_id := p.category_id
    category_name := p.category_name
    brand := p.brand
    cost_price := p.cost_price
    list_price := p.list_price }

/-- Left-merge miss: all product attribute columns null. -/
def withNoProduct (r : FeatureRow) : SalesProdRow :=
  { toFeatureRow := r
    product_name := none
    category_id := none
    category_name := none
    brand := none
    cost_price := none
    list_price := none }

/-- Lines 155-159: `merge(products, on='product_id', how='left')`.  Every
matching dimension row produces an output row; a transaction with no match is
kept with null attributes.  (pandas matches a null key to a null key, hence
plain equality of the `Option` keys.) -/
def joinProducts (products : List ProductRow) (rows : List FeatureRow) :
    List SalesProdRow :=
  rows.flatMap fun r =>
    match products.filter fun p => decide (p.product_id = r.product_id) with
    | [] => [withNoProduct r]
    | ms => ms.map (withProduct r)

/-- Attach a matched customer's attribute columns. -/
def withCustomer (r : SalesProdRow) (c : CustomerRow) : EnrichedRow :=
  { toSalesProdRow := r
    customer_name := c.customer_name
    customer_type := c.customer_type
    cust_region_id := c.region_id
    region_name := c.region_name
    signup_date := c.signup_date }

/-- Left-merge miss: all customer attribute columns null. -/
def withNoCustomer (r : SalesProdRow) : EnrichedRow :=
  { toSalesProdRow := r
    customer_name := none
    customer_type := none
    cust_region_id := none
    region_name := none
    signup_date := none }

/-- Lines 162-166: `merge(customers, on='customer_id', how='left')`. -/
def joinCustomers (customers : List CustomerRow) (rows : List SalesProdRow) :
    List EnrichedRow :=
  rows.flatMap fun r =>
    match customers.filter fun c => decide (c.customer_id = r.customer_id) with
    | [] => [withNoCustomer r]
    | ms => ms.map (withCustomer r)

/-- The whole enrichment chain producing `sales_enhanced` (lines 138-168). -/
def salesEnhanced (raw : List SalesRow) (products : List ProductRow)
    (customers : List CustomerRow) : List EnrichedRow :=
  joinCustomers customers (joinProducts products (deriveFeatures products (cleanLabeled raw)))

/-- Null-skipping column sum (pandas `'sum'` aggregation): null counts as 0. -/
def osum (f : α → Option ℚ) (l : List α) : ℚ :=
  (l.map fun r => ((f r).getD 0)).sum

/-- Non-null cell count (pandas `'count'` aggregation). -/
def ocount (f : α → Option β) (l : List α) : Nat :=
  l.countP fun r => (f r).isSome

/-- Insertion step of the stable sort used to model pandas/groupby ordering. -/
def insertLe (le : α → α → Bool) (x : α) : List α → List α
  | [] => [x]
  | y :: ys => if le x y then x :: y :: ys else y :: insertLe le x ys

/-- Stable insertion sort by a boolean comparison.  An element inserted from
the left lands before every equal element already placed, so equal elements
keep their original relative order. -/
def sortLe (le : α → α → Bool) : List α → List α
  | [] => []
  | x :: xs => insertLe le x (sortLe le xs)

/-- Lexicographic string comparison (pandas sorts object keys this way). -/
def strLe (a b : String) : Bool := a == b || decide (a < b)

/-- The grouping key of line 172, `groupby(['year', 'month', 'region_name'])`:
defined only when all three components are non-null (`groupby` drops the row
otherwise). -/
def monthKey (r : EnrichedRow) : Option (Nat × Nat × String) :=
  match r.year, r.month, r.region_name with
  | some y, some m, some g => some (y, m, g)
  | _, _, _ => none

/-- Ascending lexicographic order on monthly keys (groupby's key sort). -/
def monthKeyLe (a b : Nat × Nat × String) : Bool :=
  decide (a.1 < b.1) ||
    (a.1 == b.1 && (decide (a.2.1 < b.2.1) || (a.2.1 == b.2.1 && strLe a.2.2 b.2.2)))

/-- One row of `monthly_revenue` with the renamed columns of line 178. -/
structure MonthlyRow where
  year : Nat
  month : Nat
  region : String
  revenue : ℚ
  total_sales : ℚ
  units_sold : ℚ
  transaction_count : Nat
deriving DecidableEq, Repr

/-- Lines 172-178: group `sales_enhanced` by (year, month, region_name), sum
revenue, total_amount and quantity_sold, count transaction_id. -/
def monthlyRevenue (rows : List EnrichedRow) : List MonthlyRow :=
  (sortLe monthKeyLe (rows.filterMap monthKey).dedup).map fun k =>
    { year := k.1
      month := k.2.1
      region := k.2.2
      revenue := osum (fun r => r.revenue) (rows.filter fun r => decide (monthKey r = some k))
      total_sales :=
        osum (fun r => r.total_amount) (rows.filter fun r => decide (monthKey r = some k))
      units_sold :=
        osum (fun r => r.quantity_sold) (rows.filter fun r => decide (monthKey r = some k))
      transaction_count :=
        ocount (fun r => r.transaction_id) (rows.filter fun r => decide (monthKey r = some k)) }

/-- The grouping key of line 183, `groupby(['category_name', 'product_name'])`. -/
def ppKey (r : EnrichedRow) : Option (String × String) :=
  match r.category_name, r.product_name with
  | some c, some p => some (c, p)
  | _, _ => none

/-- Ascending lexicographic order on product-performance keys. -/
def ppKeyLe (a b : String × String) : Bool :=
  decide (a.1 < b.1) || (a.1 == b.1 && strLe a.2 b.2)

/-- One row of `product_performance`. -/
structure PPRow where
  category_name : String
  product_name : String
  revenue : ℚ
  quantity_sold : ℚ
  profit_margin : ℚ
deriving DecidableEq, Repr

/-- Lines 183-187: the grouped sums, before the revenue sort. -/
def ppGrouped (rows : List EnrichedRow) : List PPRow :=
  (sortLe ppKeyLe (rows.filterMap ppKey).dedup).map fun k =>
    { category_name := k.1
      product_name := k.2
      revenue := osum (fun r => r.revenue) (rows.filter fun r => decide (ppKey r = some k))
      quantity_sold :=
        osum (fun r => r.quantity_sold) (rows.filter fun r => decide (ppKey r = some k))
      profit_margin :=
        osum (fun r => r.profit_margin) (rows.filter fun r => decide (ppKey r = some k)) }

/-- Descending comparison by the revenue measure: `ppRevGe a b` holds when
`a`'s revenue is at least `b`'s. -/
def ppRevGe (a b : PPRow) : Bool := decide (b.revenue ≤ a.revenue)

/-- Line 188, `sort_values('revenue', ascending=False)`: pandas `nargsort`
reverses the rows, runs a stable ascending argsort, and reverses the result —
a stable descending sort by the column that keeps equal-revenue rows in their
original relative order.  `sortLe ppRevGe` (stable insertion sort by the
at-least-as-much-revenue comparison) is exactly that sort. -/
def productPerformance (rows : List EnrichedRow) : List PPRow :=
  sortLe ppRevGe (ppGrouped rows)

/-- One row of `customer_metrics` with the renamed columns of line 199
(the calendar columns omitted, see the header). -/
structure CMRow where
  customer_id : Nat
  total_revenue : ℚ
  transaction_frequency : Nat
  avg_order_value : ℚ
deriving DecidableEq, Repr

/-- Ascending order on customer ids. -/
def natLeB (a b : Nat) : Bool := decide (a ≤ b)

/-- Lines 193-201: group `sales_enhanced` by customer_id, sum revenue, count
transaction_id, and derive `avg_order_value = total_revenue / frequency`. -/
def customerMetrics (rows : List EnrichedRow) : List CMRow :=
  (sortLe natLeB (rows.filterMap fun r => r.customer_id).dedup).map fun c =>
    { customer_id := c
      total_revenue :=
        osum (fun r => r.revenue) (rows.filter fun r => decide (r.customer_id = some c))
      transaction_frequency :=
        ocount (fun r => r.transaction_id) (rows.filter fun r => decide (r.customer_id = some c))
      avg_order_value :=
        osum (fun r => r.revenue) (rows.filter fun r => decide (r.customer_id = some c))
          / (ocount (fun r => r.transaction_id)
              (rows.filter fun r => decide (r.customer_id = some c)) : ℚ) }

/-- Lines 204-212, the nested `categorize_customer`. -/
def categorize_customer (row : CMRow) : String :=
  if 10000 ≤ row.total_revenue ∧ 10 ≤ row.transaction_frequency then "VIP"
  else if 5000 ≤ row.total_revenue ∨ 5 ≤ row.transaction_frequency then "High Value"
  else if 1000 ≤ row.total_revenue then "Regular"
  else "Low Value"

/-- One row of the `customer_segments` output (line 214-215). -/
structure CSRow extends CMRow where
  customer_segment : String
deriving DecidableEq, Repr

/-- Lines 214-215: apply `categorize_customer` to every metrics row. -/
def customerSegments (rows : List EnrichedRow) : List CSRow :=
  (customerMetrics rows).map fun m =>
    { toCMRow := m, customer_segment := categorize_customer m }

/-- Modelled from the spec (§4.5): a first-match-wins run over an ordered list
of (predicate, label) rules with a default label. -/
def runDecisionList (default : String) :
    List (((ℚ × Nat) → Bool) × String) → (ℚ × Nat) → String
  | [], _ => default
  | (p, lab) :: rest, x => if p x then lab else runDecisionList default rest x

/-- Modelled from the spec (§4.5): the Segmenter's rules as an ordered decision
list over (total_revenue, transaction_frequency). -/
def segmenterRules : List (((ℚ × Nat) → Bool) × String) :=
  [(fun x => decide (10000 ≤ x.1) && decide (10 ≤ x.2), "VIP"),
   (fun x => decide (5000 ≤ x.1) || decide (5 ≤ x.2), "High Value"),
   (fun x => decide (1000 ≤ x.1), "Regular")]

/-- Modelled from the spec (§4.5): the Segmenter as the decision list above
with default label "Low Value". -/
def segmentSpec (x : ℚ × Nat) : String :=
  runDecisionList "Low Value" segmenterRules x

/-- Modelled from the spec (§4.2): resolve a cost price by looking the row's
`product_id` up in the Product table; null when there is no match. -/
def costLookup (products : List ProductRow) (pid : Option Nat) : Option ℚ :=
  match products.find? fun p => decide (p.product_id = pid) with
  | some p => p.cost_price
  | none => none

/-- Modelled from the spec (§4.2): `profit_margin` computed with the keyed
lookup the spec mandates — null whenever the `product_id` has no match. -/
def profitMarginByLookup (products : List ProductRow) (r : SalesRow) : Option ℚ :=
  osub r.total_amount (omul r.quantity_sold (costLookup products r.product_id))

/-- The row order the spec claims for `product_performance`: strictly
descending by revenue, with ties strictly ascending by
(category_name, product_name). -/
def ppClaimOrder (a b : PPRow) : Prop :=
  b.revenue < a.revenue ∨
    (b.revenue = a.revenue ∧
      (a.category_name < b.category_name ∨
        (a.category_name = b.category_name ∧ a.product_name < b.product_name)))

instance : DecidableRel ppClaimOrder := fun a b => by
  unfold ppClaimOrder
  infer_instance

/-! Concrete example tables used by the closed theorems below. -/

/-- A fixed calendar date. -/
def exDate : SDate := ⟨2024, 1, 5⟩

/-- Product 1, name "A", category "C", cost price 5. -/
def exProdA : ProductRow := ⟨some 1, some "A", some 1, some "C", none, some 5, none⟩

/-- Product 2, name "B", category "C", cost price 10. -/
def exProdB : ProductRow := ⟨some 2, some "B", some 1, some "C", none, some 10, none⟩

/-- A sale of product 2 by customer 7: quantity 2, unit price 7, total 100. -/
def exSaleB : SalesRow := ⟨some 1, some exDate, some 2, some 7, some 2, some 7, some 100, none, none⟩

/-- A sale referencing product id 99, present in no Product table here. -/
def exSaleX : SalesRow := ⟨some 2, some exDate, some 99, some 7, some 1, some 5, some 20, none, none⟩

/-- Customer 7 in region "West". -/
def exCustW : CustomerRow := ⟨some 7, some "N", none, some 1, some "West", none⟩

/-- A transaction with total_amount = 0. -/
def exZeroAmount : SalesRow := ⟨some 3, some exDate, none, none, some 1, some 1, some 0, none, none⟩

/-- A transaction with total_amount = -50. -/
def exNegAmount : SalesRow := ⟨some 4, some exDate, none, none, some 1, some 1, some (-50), none, none⟩

/-- A transaction with total_amount = 100 but a null transaction_id. -/
def exNullId : SalesRow := ⟨none, some exDate, none, none, some 1, some 1, some 100, none, none⟩

/-- A retained transaction with a null quantity_sold. -/
def exNullQty : SalesRow := ⟨some 5, some exDate, none, none, none, some 3, some 5, none, none⟩

/-- A sale of product 1: quantity 1, unit price 10 (revenue 10). -/
def exSaleT1 : SalesRow := ⟨some 1, some ⟨2024, 1, 1⟩, some 1, none, some 1, some 10, some 10, none, none⟩

/-- A sale of product 2 with the same revenue 10. -/
def exSaleT2 : SalesRow := ⟨some 2, some ⟨2024, 1, 2⟩, some 2, none, some 1, some 10, some 10, none, none⟩

/-- The enriched row the pipeline produces from `exSaleB` with Product table
`[exProdB]` and an empty Customer table. -/
def exEnriched : EnrichedRow :=
  ⟨⟨⟨some 1, some exDate, some 2, some 7, some 2, some 7, some 100, none, none,
     some 14, some 80, some 2024, some 1, some 1⟩,
    some "B", some 1, some "C", none, some 10, none⟩,
   none, none, none, none, none⟩

/-- The feature row the pipeline produces from `exSaleB` with an empty Product
table (no cost price at label 0, hence a null margin). -/
def exFeatB : FeatureRow :=
  ⟨some 1, some exDate, some 2, some 7, some 2, some 7, some 100, none, none,
   some 14, none, some 2024, some 1, some 1⟩

/-- The customer-metrics row for customer 7 produced from `exSaleB` alone. -/
def exCM : CMRow := ⟨7, 14, 1, 14⟩

/-- The enriched row produced from `exSaleB` with Product table `[exProdB]`
and Customer table `[exCustW]` (customer matched, region "West"). -/
def exEnrichedW : EnrichedRow :=
  ⟨⟨⟨some 1, some exDate, some 2, some 7, some 2, some 7, some 100, none, none,
     some 14, some 80, some 2024, some 1, some 1⟩,
    some "B", some 1, some "C", none, some 10, none⟩,
   some "N", none, some 1, some "West", none⟩

/-- The enriched row produced from `exSaleT1` (label 0) with Product table
`[exProdA, exProdB]` and an empty Customer table. -/
def exET1 : EnrichedRow :=
  ⟨⟨⟨some 1, some ⟨2024, 1, 1⟩, some 1, none, some 1, some 10, some 10, none, none,
     some 10, some 5, some 2024, some 1, some 1⟩,
    some "A", some 1, some "C", none, some 5, none⟩,
   none, none, none, none, none⟩

/-- The enriched row produced from `exSaleT2` (label 1) with Product table
`[exProdA, exProdB]` and an empty Customer table. -/
def exET2 : EnrichedRow :=
  ⟨⟨⟨some 2, some ⟨2024, 1, 2⟩, some 2, none, some 1, some 10, some 10, none, none,
     some 10, some 0, some 2024, some 1, some 1⟩,
    some "B", some 1, some "C", none, some 10, none⟩,
   none, none, none, none, none⟩

/-! General lemmas about the list operations of the embedding. -/

theorem insertLe_perm {α : Type*} (le : α → α → Bool) (x : α) (l : List α) :
    (insertLe le x l).Perm (x :: l) := by
  induction l with
  | nil => exact List.Perm.refl _
  | cons y ys ih =>
    cases h : le x y with
    | true => simp [insertLe, h]
    | false =>
      simp only [insertLe, h, Bool.false_eq_true, if_false]
      exact (ih.cons y).trans (List.Perm.swap x y ys)

theorem sortLe_perm {α : Type*} (le : α → α → Bool) (l : List α) :
    (sortLe le l).Perm l := by
  induction l with
  | nil => exact List.Perm.refl _
  | cons x xs ih => exact (insertLe_perm le x (sortLe le xs)).trans (ih.cons x)

theorem pairwise_insertLe {α : Type*} {le : α → α → Bool}
    (htot : ∀ a b, le a b = true ∨ le b a = true)
    (htrans : ∀ a b c, le a b = true → le b c = true → le a c = true)
    {x : α} {l : List α} (h : l.Pairwise fun a b => le a b = true) :
    (insertLe le x l).Pairwise fun a b => le a b = true := by
  induction l with
  | nil => simp [insertLe]
  | cons y ys ih =>
    rcases List.pairwise_cons.mp h with ⟨hy, hys⟩
    cases hxy : le x y with
    | true =>
      simp only [insertLe, hxy, if_true]
      refine List.pairwise_cons.mpr ⟨?_, h⟩
      intro z hz
      rcases List.mem_cons.mp hz with rfl | hz'
      · exact hxy
      · exact htrans x y z hxy (hy z hz')
    | false =>
      simp only [insertLe, hxy, Bool.false_eq_true, if_false]
      refine List.pairwise_cons.mpr ⟨?_, ih hys⟩
      intro z hz
      have hz' := (insertLe_perm le x ys).mem_iff.mp hz
      rcases List.mem_cons.mp hz' with rfl | hz''
      · rcases htot y z with hh | hh
        · exact hh
        · simp [hxy] at hh
      · exact hy z hz''

theorem pairwise_sortLe {α : Type*} {le : α → α → Bool}
    (htot : ∀ a b, le a b = true ∨ le b a = true)
    (htrans : ∀ a b c, le a b = true → le b c = true → le a c = true)
    (l : List α) : (sortLe le l).Pairwise fun a b => le a b = true := by
  induction l with
  | nil => simp [sortLe]
  | cons x xs ih => exact pairwise_insertLe htot htrans ih

theorem map_snd_filter_enumFrom {α : Type*} (q : α → Bool) :
    ∀ (n : Nat) (l : List α),
      ((List.enumFrom n l).filter fun p => q p.2).map Prod.snd = l.filter q := by
  intro n l
  induction l generalizing n with
  | nil => rfl
  | cons x xs ih =>
    simp only [List.enumFrom, List.filter]
    cases hq : q x <;> simp [hq, ih]

/-- The combined row predicate the Cleaner realises. -/
def cleanPred (r : SalesRow) : Bool := keepIdAmount r && posAmount r

theorem cleanSales_eq_filter (rows : List SalesRow) :
    cleanSales rows = rows.filter cleanPred := by
  unfold cleanSales cleanLabeled
  rw [List.filter_filter]
  have h := map_snd_filter_enumFrom (fun r => posAmount r && keepIdAmount r) 0 rows
  simp only [List.enum] at *
  rw [h]
  exact List.filter_congr fun a _ => Bool.and_comm (posAmount a) (keepIdAmount a)

theorem mem_cleanSales {rows : List SalesRow} {r : SalesRow} (h : r ∈ cleanSales rows) :
    keepIdAmount r = true ∧ posAmount r = true := by
  rw [cleanSales_eq_filter] at h
  have := (List.mem_filter.mp h).2
  simpa [cleanPred, Bool.and_eq_true] using this

/-! Claim theorems: Cleaner and Segmenter. -/

/-- C7: every row of the Cleaner's output has a non-null transaction_id and a
non-null, strictly positive total_amount; in particular the concrete rows with
total_amount 0, total_amount -50, and total_amount 100 but a null
transaction_id are all absent from the output. -/
theorem C7_clean_invariant :
    (∀ (rows : List SalesRow) (r : SalesRow), r ∈ cleanSales rows →
        r.transaction_id ≠ none ∧ ∃ a, r.total_amount = some a ∧ 0 < a)
    ∧ cleanSales [exZeroAmount, exNegAmount, exNullId] = [] := by
  constructor
  · intro rows r hr
    rcases mem_cleanSales hr with ⟨hk, hp⟩
    constructor
    · rcases h : r.transaction_id with _ | v
      · simp [keepIdAmount, h] at hk
      · simp [h]
    · rcases h : r.total_amount with _ | a
      · simp [posAmount, h] at hp
      · refine ⟨a, rfl, ?_⟩
        simpa [posAmount, h] using hp
  · decide

/-- C7 witness: the invariant holds at the concrete cleaned row `exSaleB`. -/
theorem C7_clean_invariant_witness :
    exSaleB.transaction_id ≠ none ∧ ∃ a, exSaleB.total_amount = some a ∧ 0 < a :=
  C7_clean_invariant.1 [exSaleB] exSaleB (by decide)

/-- C8: the Cleaner is idempotent — running the cleaning rules on the
Cleaner's own output returns that output unchanged. -/
theorem C8_clean_idempotent (rows : List SalesRow) :
    cleanSales (cleanSales rows) = cleanSales rows := by
  rw [cleanSales_eq_filter (cleanSales rows), List.filter_eq_self.mpr]
  intro r hr
  rcases mem_cleanSales hr with ⟨hk, hp⟩
  simp [cleanPred, hk, hp]

/-- C3: `categorize_customer` coincides with the spec's ordered decision list
(first matching rule wins) on every metrics row, and maps the four concrete
(total_revenue, transaction_frequency) pairs to the labels the claim states. -/
theorem C3_segmenter_decision_list :
    (∀ m : CMRow, categorize_customer m = segmentSpec (m.total_revenue, m.transaction_frequency))
    ∧ categorize_customer ⟨0, 12000, 12, 0⟩ = "VIP"
    ∧ categorize_customer ⟨0, 6000, 2, 0⟩ = "High Value"
    ∧ categorize_customer ⟨0, 1500, 1, 0⟩ = "Regular"
    ∧ categorize_customer ⟨0, 200, 1, 0⟩ = "Low Value" := by
  refine ⟨?_, ?_, ?_, ?_, ?_⟩
  · intro m
    by_cases h1 : 10000 ≤ m.total_revenue <;>
      by_cases h2 : 10 ≤ m.transaction_frequency <;>
        by_cases h3 : 5000 ≤ m.total_revenue <;>
          by_cases h4 : 5 ≤ m.transaction_frequency <;>
            by_cases h5 : 1000 ≤ m.total_revenue <;>
              simp [categorize_customer, segmentSpec, runDecisionList, segmenterRules,
                h1, h2, h3, h4, h5]
  · norm_num [categorize_customer]
  · norm_num [categorize_customer]
  · norm_num [categorize_customer]
  · norm_num [categorize_customer]

/-! Claim theorems: Feature Deriver and Joiner. -/

/-- C1: evaluation showing the code's profit_margin is the index-aligned one,
not the claimed product_id lookup.  For raw sales [exSaleB (product 2),
exSaleX (product 99)] against products [exProdA, exProdB], the code pairs
exSaleB (label 0) with exProdA's cost 5 giving 100 - 2*5 = 90, and exSaleX
(label 1) with exProdB's cost 10 giving 20 - 1*10 = 10 — non-null although
product 99 has no match; the claimed keyed lookup gives 100 - 2*10 = 80 for
exSaleB and null for exSaleX. -/
theorem C1_positional_margin_eval :
    ((deriveFeatures [exProdA, exProdB] (cleanLabeled [exSaleB, exSaleX])).map
        fun r => r.profit_margin) = [some 90, some 10]
    ∧ profitMarginByLookup [exProdA, exProdB] exSaleB = some 80
    ∧ profitMarginByLookup [exProdA, exProdB] exSaleX = none := by
  refine ⟨?_, ?_, ?_⟩
  · have h : cleanLabeled [exSaleB, exSaleX] = [(0, exSaleB), (1, exSaleX)] := by decide
    rw [h]
    norm_num [deriveFeatures, omul, osub, costAt, exSaleB, exSaleX, exProdA, exProdB]
  · norm_num [profitMarginByLookup, costLookup, omul, osub, exSaleB, exProdA, exProdB,
      List.find?]
  · norm_num [profitMarginByLookup, costLookup, omul, osub, exSaleX, exProdA, exProdB,
      List.find?]

/-- C5 (amended): every derived row's revenue equals the null-propagating
product of its quantity_sold and unit_price cells, independent of any join,
and is non-null whenever both cells are non-null. -/
theorem C5_revenue_formula (raw : List SalesRow) (products : List ProductRow)
    (e : FeatureRow) (h : e ∈ deriveFeatures products (cleanLabeled raw)) :
    e.revenue = omul e.quantity_sold e.unit_price ∧
      (e.quantity_sold.isSome = true → e.unit_price.isSome = true →
        e.revenue.isSome = true) := by
  rcases List.mem_map.mp h with ⟨li, hmem, rfl⟩
  refine ⟨rfl, ?_⟩
  intro hq hp
  have hq' : li.2.quantity_sold.isSome = true := hq
  have hp' : li.2.unit_price.isSome = true := hp
  rcases Option.isSome_iff_exists.mp hq' with ⟨q, hq2⟩
  rcases Option.isSome_iff_exists.mp hp' with ⟨p, hp2⟩
  show (omul li.2.quantity_sold li.2.unit_price).isSome = true
  simp [omul, hq2, hp2]

/-- C5 counterexample: the raw row exNullQty (null quantity_sold, positive
total_amount) is retained by the Cleaner, yet its derived revenue is null —
against the claim that revenue is never null for a retained row. -/
theorem C5_revenue_counterexample :
    cleanSales [exNullQty] = [exNullQty]
    ∧ ((deriveFeatures [] (cleanLabeled [exNullQty])).map fun r => r.revenue) = [none] := by
  constructor
  · decide
  · have h : cleanLabeled [exNullQty] = [(0, exNullQty)] := by decide
    rw [h]
    simp [deriveFeatures, omul, exNullQty]

/-- C5 witness: the amended statement at the concrete derived row of exSaleB. -/
theorem C5_revenue_formula_witness :
    exFeatB.revenue = omul exFeatB.quantity_sold exFeatB.unit_price ∧
      (exFeatB.quantity_sold.isSome = true → exFeatB.unit_price.isSome = true →
        exFeatB.revenue.isSome = true) :=
  C5_revenue_formula [exSaleB] [] exFeatB (by
    have h : cleanLabeled [exSaleB] = [(0, exSaleB)] := by decide
    rw [h]
    norm_num [deriveFeatures, omul, osub, costAt, exSaleB, exFeatB, exDate, quarterOfMonth])

theorem filter_key_length_le_one {α κ : Type*} [DecidableEq κ] (key : α → κ) (k : κ) :
    ∀ l : List α, (l.map key).Nodup →
      (l.filter fun x => decide (key x = k)).length ≤ 1 := by
  intro l
  induction l with
  | nil => simp
  | cons x xs ih =>
    intro hnd
    rw [List.map_cons, List.nodup_cons] at hnd
    rcases hnd with ⟨hnotin, hnd'⟩
    by_cases hk : key x = k
    · subst hk
      rw [List.filter_cons_of_pos (by simp)]
      have hz : (xs.filter fun y => decide (key y = key x)).length = 0 := by
        rw [List.length_eq_zero, List.filter_eq_nil_iff]
        intro y hy
        simp only [decide_eq_true_eq]
        intro hkey
        exact hnotin (hkey ▸ List.mem_map_of_mem key hy)
      simp [hz]
    · rw [List.filter_cons_of_neg (by simp [hk])]
      exact ih hnd'

theorem joinProducts_length (products : List ProductRow)
    (hnd : (products.map fun p => p.product_id).Nodup) :
    ∀ rows : List FeatureRow, (joinProducts products rows).length = rows.length := by
  intro rows
  induction rows with
  | nil => rfl
  | cons r rs ih =>
    have hstep : joinProducts products (r :: rs)
        = (match products.filter fun p => decide (p.product_id = r.product_id) with
           | [] => [withNoProduct r]
           | ms => ms.map (withProduct r)) ++ joinProducts products rs := rfl
    have hle0 := filter_key_length_le_one (fun p : ProductRow => p.product_id)
      r.product_id products hnd
    have hle : (products.filter fun p => decide (p.product_id = r.product_id)).length ≤ 1 := hle0
    rw [hstep, List.length_append, ih, List.length_cons]
    set fl := products.filter fun p => decide (p.product_id = r.product_id) with hfl
    clear_value fl
    cases fl with
    | nil =>
      show ([withNoProduct r]).length + rs.length = rs.length + 1
      simp only [List.length_singleton]
      omega
    | cons m ms =>
      show ((m :: ms).map (withProduct r)).length + rs.length = rs.length + 1
      simp only [List.length_cons, List.length_map] at hle ⊢
      omega

theorem joinCustomers_length (customers : List CustomerRow)
    (hnd : (customers.map fun c => c.customer_id).Nodup) :
    ∀ rows : List SalesProdRow, (joinCustomers customers rows).length = rows.length := by
  intro rows
  induction rows with
  | nil => rfl
  | cons r rs ih =>
    have hstep : joinCustomers customers (r :: rs)
        = (match customers.filter fun c => decide (c.customer_id = r.customer_id) with
           | [] => [withNoCustomer r]
           | ms => ms.map (withCustomer r)) ++ joinCustomers customers rs := rfl
    have hle0 := filter_key_length_le_one (fun c : CustomerRow => c.customer_id)
      r.customer_id customers hnd
    have hle : (customers.filter fun c => decide (c.customer_id = r.customer_id)).length ≤ 1 := hle0
    rw [hstep, List.length_append, ih, List.length_cons]
    set fl := customers.filter fun c => decide (c.customer_id = r.customer_id) with hfl
    clear_value fl
    cases fl with
    | nil =>
      show ([withNoCustomer r]).length + rs.length = rs.length + 1
      simp only [List.length_singleton]
      omega
    | cons m ms =>
      show ((m :: ms).map (withCustomer r)).length + rs.length = rs.length + 1
      simp only [List.length_cons, List.length_map] at hle ⊢
      omega

/-- C4: when both dimension tables are unique per their join key, the two left
merges neither drop nor duplicate transaction rows — the enriched table has
exactly one row per Feature Deriver output row, which in turn has one row per
cleaned transaction. -/
theorem C4_join_row_count (raw : List SalesRow) (products : List ProductRow)
    (customers : List CustomerRow)
    (hp : (products.map fun p => p.product_id).Nodup)
    (hc : (customers.map fun c => c.customer_id).Nodup) :
    (salesEnhanced raw products customers).length
        = (deriveFeatures products (cleanLabeled raw)).length
    ∧ (deriveFeatures products (cleanLabeled raw)).length = (cleanSales raw).length := by
  constructor
  · unfold salesEnhanced
    rw [joinCustomers_length customers hc, joinProducts_length products hp]
  · simp [deriveFeatures, cleanSales]

/-- C4 witness: the row-count preservation at a concrete input whose dimension
tables are key-unique. -/
theorem C4_join_row_count_witness :
    (salesEnhanced [exSaleB] [exProdA, exProdB] [exCustW]).length
        = (deriveFeatures [exProdA, exProdB] (cleanLabeled [exSaleB])).length
    ∧ (deriveFeatures [exProdA, exProdB] (cleanLabeled [exSaleB])).length
        = (cleanSales [exSaleB]).length :=
  C4_join_row_count [exSaleB] [exProdA, exProdB] [exCustW] (by decide) (by decide)

/-! Claim theorems: Aggregator sum conservation. -/

theorem osum_cons {α : Type*} (f : α → Option ℚ) (a : α) (l : List α) :
    osum f (a :: l) = ((f a).getD 0) + osum f l := by
  simp [osum]

theorem sum_over_keys_cons {α κ : Type*} [DecidableEq κ]
    (f : α → Option ℚ) (keyOf : α → Option κ) (r : α) (rows : List α) :
    ∀ ks : List κ, ks.Nodup →
      ((ks.map fun k => osum f ((r :: rows).filter fun a => decide (keyOf a = some k))).sum
        = (match keyOf r with
           | some k => if k ∈ ks then (f r).getD 0 else 0
           | none => 0)
          + (ks.map fun k => osum f (rows.filter fun a => decide (keyOf a = some k))).sum) := by
  intro ks
  induction ks with
  | nil =>
    intro _
    rcases hk : keyOf r with _ | k <;> simp
  | cons k ks ih =>
    intro hnd
    rw [List.nodup_cons] at hnd
    rcases hnd with ⟨hkn, hnd'⟩
    rw [List.map_cons, List.sum_cons, List.map_cons, List.sum_cons, ih hnd']
    rcases hk : keyOf r with _ | k'
    · rw [List.filter_cons_of_neg (by simp [hk])]
      ring
    · dsimp only
      by_cases hkk : k' = k
      · subst hkk
        rw [List.filter_cons_of_pos (by simp [hk]), osum_cons,
          if_pos (List.mem_cons_self k' ks), if_neg hkn]
        ring
      · rw [List.filter_cons_of_neg (by simp [hk, hkk])]
        by_cases hmem : k' ∈ ks
        · rw [if_pos hmem, if_pos (List.mem_cons_of_mem k hmem)]
          ring
        · rw [if_neg hmem, if_neg (by simp [List.mem_cons, hkk, hmem])]
          ring

theorem sum_over_keys {α κ : Type*} [DecidableEq κ]
    (f : α → Option ℚ) (keyOf : α → Option κ) :
    ∀ (rows : List α) (ks : List κ), ks.Nodup →
      (∀ r ∈ rows, ∀ k, keyOf r = some k → k ∈ ks) →
      (ks.map fun k => osum f (rows.filter fun a => decide (keyOf a = some k))).sum
        = osum f (rows.filter fun a => (keyOf a).isSome) := by
  intro rows
  induction rows with
  | nil =>
    intro ks _ _
    have h0 : ∀ x ∈ ks.map fun k =>
        osum f (([] : List α).filter fun a => decide (keyOf a = some k)), x = (0 : ℚ) := by
      intro x hx
      rcases List.mem_map.mp hx with ⟨k, _, rfl⟩
      rfl
    rw [List.sum_eq_zero h0]
    rfl
  | cons r rows ih =>
    intro ks hnd hcov
    rw [sum_over_keys_cons f keyOf r rows ks hnd]
    have hcov' : ∀ a ∈ rows, ∀ k, keyOf a = some k → k ∈ ks :=
      fun a ha k hk => hcov a (List.mem_cons_of_mem r ha) k hk
    rw [ih ks hnd hcov']
    rcases hk : keyOf r with _ | k
    · rw [List.filter_cons_of_neg (by simp [hk])]
      simp
    · dsimp only
      rw [List.filter_cons_of_pos (by simp [hk]), osum_cons,
        if_pos (hcov r (List.mem_cons_self r rows) k hk)]

/-- C2 (amended): the revenue measure of `monthly_revenue` sums, over all
groups, to the revenue sum of exactly those enriched rows whose grouping key
(year, month, region_name) is fully non-null — the groups partition that
subtable, while rows with a null key component are excluded by groupby. -/
theorem C2_monthly_sum_conservation (raw : List SalesRow) (products : List ProductRow)
    (customers : List CustomerRow) :
    ((monthlyRevenue (salesEnhanced raw products customers)).map fun m => m.revenue).sum
      = osum (fun r => r.revenue)
          ((salesEnhanced raw products customers).filter fun r => (monthKey r).isSome) := by
  set rows := salesEnhanced raw products customers with hrows
  have hperm := sortLe_perm monthKeyLe ((rows.filterMap monthKey).dedup)
  have hnd : (sortLe monthKeyLe ((rows.filterMap monthKey).dedup)).Nodup :=
    hperm.nodup_iff.mpr (List.nodup_dedup _)
  have hcov : ∀ r ∈ rows, ∀ k, monthKey r = some k →
      k ∈ sortLe monthKeyLe ((rows.filterMap monthKey).dedup) := by
    intro r hr k hk
    exact hperm.mem_iff.mpr (List.mem_dedup.mpr (List.mem_filterMap.mpr ⟨r, hr, hk⟩))
  have h := sum_over_keys (fun r : EnrichedRow => r.revenue) monthKey rows
    (sortLe monthKeyLe ((rows.filterMap monthKey).dedup)) hnd hcov
  rw [monthlyRevenue, List.map_map]
  exact h

/-- C2 counterexample: with Customer table empty, the single enriched
transaction has a null region_name, so `monthly_revenue` is empty and its
revenue total 0, while the enriched table's revenue total is 14 — the claimed
equality over ALL enriched rows fails. -/
theorem C2_monthly_counterexample :
    monthlyRevenue (salesEnhanced [exSaleB] [exProdB] []) = []
    ∧ osum (fun r => r.revenue) (salesEnhanced [exSaleB] [exProdB] []) = 14 := by
  constructor
  · rfl
  · have hE : salesEnhanced [exSaleB] [exProdB] [] = [exEnriched] := by
      have h1 : cleanLabeled [exSaleB] = [(0, exSaleB)] := by decide
      rw [salesEnhanced, h1]
      norm_num [deriveFeatures, joinProducts, joinCustomers, withProduct, withNoCustomer,
        omul, osub, costAt, exSaleB, exProdB, exEnriched, exDate, quarterOfMonth]
    rw [hE]
    norm_num [osum, exEnriched]

/-! Claim theorems: customer metrics safety. -/

theorem mem_cleanLabeled {rows : List SalesRow} {p : Nat × SalesRow}
    (h : p ∈ cleanLabeled rows) : keepIdAmount p.2 = true ∧ posAmount p.2 = true := by
  unfold cleanLabeled at h
  have h2 := List.mem_filter.mp h
  have h1 := List.mem_filter.mp h2.1
  exact ⟨h1.2, h2.2⟩

theorem mem_deriveFeatures_tid {products : List ProductRow} {labeled : List (Nat × SalesRow)}
    {e : FeatureRow} (h : e ∈ deriveFeatures products labeled) :
    ∃ p ∈ labeled, e.transaction_id = p.2.transaction_id := by
  rcases List.mem_map.mp h with ⟨li, hmem, rfl⟩
  exact ⟨li, hmem, rfl⟩

theorem mem_joinProducts_tid {products : List ProductRow} {rows : List FeatureRow}
    {e : SalesProdRow} (h : e ∈ joinProducts products rows) :
    ∃ r ∈ rows, e.transaction_id = r.transaction_id := by
  rcases List.mem_flatMap.mp h with ⟨r, hr, hm⟩
  refine ⟨r, hr, ?_⟩
  rcases hfl : products.filter fun p => decide (p.product_id = r.product_id) with _ | ⟨m, ms⟩ <;>
    rw [hfl] at hm
  · have he : e = withNoProduct r := by simpa using hm
    rw [he]
    rfl
  · rcases List.mem_map.mp (by simpa using hm : e ∈ (m :: ms).map (withProduct r)) with ⟨c, _, rfl⟩
    rfl

theorem mem_joinCustomers_tid {customers : List CustomerRow} {rows : List SalesProdRow}
    {e : EnrichedRow} (h : e ∈ joinCustomers customers rows) :
    ∃ r ∈ rows, e.transaction_id = r.transaction_id := by
  rcases List.mem_flatMap.mp h with ⟨r, hr, hm⟩
  refine ⟨r, hr, ?_⟩
  rcases hfl : customers.filter fun c => decide (c.customer_id = r.customer_id) with _ | ⟨m, ms⟩ <;>
    rw [hfl] at hm
  · have he : e = withNoCustomer r := by simpa using hm
    rw [he]
    rfl
  · rcases List.mem_map.mp (by simpa using hm : e ∈ (m :: ms).map (withCustomer r)) with ⟨c, _, rfl⟩
    rfl

theorem salesEnhanced_tid_isSome {raw : List SalesRow} {products : List ProductRow}
    {customers : List CustomerRow} {e : EnrichedRow}
    (h : e ∈ salesEnhanced raw products customers) : e.transaction_id.isSome = true := by
  rcases mem_joinCustomers_tid h with ⟨r2, hr2, he2⟩
  rcases mem_joinProducts_tid hr2 with ⟨r3, hr3, he3⟩
  rcases mem_deriveFeatures_tid hr3 with ⟨p, hp, he4⟩
  have hk := (mem_cleanLabeled hp).1
  rw [he2, he3, he4]
  exact (Bool.and_eq_true _ _).mp hk |>.1

/-- C9: every customer_metrics row has transaction_frequency at least 1 — its
group exists only because some retained transaction references the customer,
and every retained transaction has a non-null transaction_id — and
avg_order_value is exactly total_revenue / transaction_frequency, so that
division never has a zero divisor. -/
theorem C9_frequency_positive (raw : List SalesRow) (products : List ProductRow)
    (customers : List CustomerRow) (m : CMRow)
    (h : m ∈ customerMetrics (salesEnhanced raw products customers)) :
    1 ≤ m.transaction_frequency ∧
      m.avg_order_value = m.total_revenue / (m.transaction_frequency : ℚ) := by
  rcases List.mem_map.mp h with ⟨c, hc, rfl⟩
  refine ⟨?_, rfl⟩
  have hc2 : c ∈ ((salesEnhanced raw products customers).filterMap fun r => r.customer_id) :=
    List.mem_dedup.mp ((sortLe_perm natLeB _).mem_iff.mp hc)
  rcases List.mem_filterMap.mp hc2 with ⟨r, hr, hkey⟩
  show 1 ≤ ocount (fun r => r.transaction_id)
      ((salesEnhanced raw products customers).filter fun r => decide (r.customer_id = some c))
  have hrg : r ∈ (salesEnhanced raw products customers).filter
      fun r => decide (r.customer_id = some c) :=
    List.mem_filter.mpr ⟨hr, by simp [hkey]⟩
  have htid := salesEnhanced_tid_isSome hr
  exact List.countP_pos_iff.mpr ⟨r, hrg, htid⟩

/-- C9 witness: the guarantee at the concrete metrics row of customer 7. -/
theorem C9_frequency_positive_witness :
    1 ≤ exCM.transaction_frequency ∧
      exCM.avg_order_value = exCM.total_revenue / (exCM.transaction_frequency : ℚ) :=
  C9_frequency_positive [exSaleB] [exProdB] [exCustW] exCM (by
    have h1 : cleanLabeled [exSaleB] = [(0, exSaleB)] := by decide
    have hE : salesEnhanced [exSaleB] [exProdB] [exCustW] = [exEnrichedW] := by
      rw [salesEnhanced, h1]
      norm_num [deriveFeatures, joinProducts, joinCustomers, withProduct, withCustomer,
        omul, osub, costAt, exSaleB, exProdB, exCustW, exEnrichedW, exDate, quarterOfMonth]
    rw [hE]
    norm_num [customerMetrics, sortLe, insertLe, natLeB, osum, ocount, exEnrichedW, exCM])

/-! Claim theorems: null grouping keys. -/

theorem filterMap_filter_isSome {α κ : Type*} (f : α → Option κ) :
    ∀ l : List α, (l.filter fun a => (f a).isSome).filterMap f = l.filterMap f := by
  intro l
  induction l with
  | nil => rfl
  | cons a l ih =>
    cases hf : f a <;> simp [List.filter_cons, List.filterMap_cons, hf, ih]

theorem filter_isSome_filter_key {α κ : Type*} [DecidableEq κ] (f : α → Option κ) (k : κ) :
    ∀ l : List α,
      ((l.filter fun a => (f a).isSome).filter fun a => decide (f a = some k))
        = l.filter fun a => decide (f a = some k) := by
  intro l
  induction l with
  | nil => rfl
  | cons a l ih =>
    cases hf : f a <;> simp [List.filter_cons, hf, ih]

theorem monthlyRevenue_filter_isSome (rows : List EnrichedRow) :
    monthlyRevenue (rows.filter fun r => (monthKey r).isSome) = monthlyRevenue rows := by
  unfold monthlyRevenue
  rw [filterMap_filter_isSome monthKey rows]
  simp only [filter_isSome_filter_key]

theorem customerMetrics_filter_isSome (rows : List EnrichedRow) :
    customerMetrics (rows.filter fun r => r.customer_id.isSome) = customerMetrics rows := by
  unfold customerMetrics
  rw [filterMap_filter_isSome (fun r : EnrichedRow => r.customer_id) rows]
  simp only [filter_isSome_filter_key]

/-- C10: grouping silently excludes rows with null keys — dropping the
enriched rows whose (year, month, region_name) key has a null component
(resp. whose customer_id is null) leaves monthly_revenue (resp.
customer_segments) unchanged, and a row with a null region_name has no
monthly key at all.  The key columns of both output tables are non-nullable
by construction. -/
theorem C10_null_key_exclusion (raw : List SalesRow) (products : List ProductRow)
    (customers : List CustomerRow) :
    monthlyRevenue ((salesEnhanced raw products customers).filter
        fun r => (monthKey r).isSome) = monthlyRevenue (salesEnhanced raw products customers)
    ∧ customerSegments ((salesEnhanced raw products customers).filter
        fun r => r.customer_id.isSome)
      = customerSegments (salesEnhanced raw products customers)
    ∧ ∀ r ∈ salesEnhanced raw products customers, r.region_name = none → monthKey r = none := by
  refine ⟨monthlyRevenue_filter_isSome _, ?_, ?_⟩
  · unfold customerSegments
    rw [customerMetrics_filter_isSome]
  · intro r _ hr
    cases hy : r.year <;> cases hm : r.month <;> simp [monthKey, hy, hm, hr]

/-- C10 witness: the enriched row of exSaleB with no matching customer has a
null region_name and indeed no monthly grouping key. -/
theorem C10_null_key_exclusion_witness : monthKey exEnriched = none :=
  (C10_null_key_exclusion [exSaleB] [exProdB] []).2.2 exEnriched (by
    have h1 : cleanLabeled [exSaleB] = [(0, exSaleB)] := by decide
    have hE : salesEnhanced [exSaleB] [exProdB] [] = [exEnriched] := by
      rw [salesEnhanced, h1]
      norm_num [deriveFeatures, joinProducts, joinCustomers, withProduct, withNoCustomer,
        omul, osub, costAt, exSaleB, exProdB, exEnriched, exDate, quarterOfMonth]
    rw [hE]
    exact List.mem_singleton.mpr rfl) rfl

/-! Claim theorems: product performance ordering. -/

theorem ppRevGe_total : ∀ a b : PPRow, ppRevGe a b = true ∨ ppRevGe b a = true := by
  intro a b
  rcases le_total b.revenue a.revenue with h | h
  · left
    simpa [ppRevGe] using h
  · right
    simpa [ppRevGe] using h

theorem ppRevGe_trans : ∀ a b c : PPRow,
    ppRevGe a b = true → ppRevGe b c = true → ppRevGe a c = true := by
  intro a b c hab hbc
  simp only [ppRevGe, decide_eq_true_eq] at hab hbc ⊢
  exact le_trans hbc hab

theorem pairwise_insertLe_stable {α : Type*} {le : α → α → Bool} {S : α → α → Prop}
    (htot : ∀ a b, le a b = true ∨ le b a = true)
    (htrans : ∀ a b c, le a b = true → le b c = true → le a c = true)
    {x : α} :
    ∀ m : List α, (∀ y ∈ m, S x y) →
      m.Pairwise (fun a b => le a b = true ∧ (le b a = true → S a b)) →
      (insertLe le x m).Pairwise fun a b => le a b = true ∧ (le b a = true → S a b) := by
  intro m
  induction m with
  | nil =>
    intro _ _
    simp [insertLe]
  | cons y ys ih =>
    intro hSx hm
    rcases List.pairwise_cons.mp hm with ⟨hy, hys⟩
    cases hxy : le x y with
    | true =>
      simp only [insertLe, hxy, if_true]
      refine List.pairwise_cons.mpr ⟨?_, hm⟩
      intro z hz
      rcases List.mem_cons.mp hz with rfl | hz'
      · exact ⟨hxy, fun _ => hSx _ (List.mem_cons_self _ _)⟩
      · exact ⟨htrans x y z hxy (hy z hz').1, fun _ => hSx z (List.mem_cons_of_mem y hz')⟩
    | false =>
      simp only [insertLe, hxy, Bool.false_eq_true, if_false]
      have hSx' : ∀ z ∈ ys, S x z := fun z hz => hSx z (List.mem_cons_of_mem y hz)
      refine List.pairwise_cons.mpr ⟨?_, ih hSx' hys⟩
      intro z hz
      rcases List.mem_cons.mp ((insertLe_perm le x ys).mem_iff.mp hz) with rfl | hz'
      · rcases htot y z with hh | hh
        · exact ⟨hh, fun hcon => absurd hcon (by simp [hxy])⟩
        · simp [hxy] at hh
      · exact hy z hz'

theorem pairwise_sortLe_stable {α : Type*} {le : α → α → Bool} {S : α → α → Prop}
    (htot : ∀ a b, le a b = true ∨ le b a = true)
    (htrans : ∀ a b c, le a b = true → le b c = true → le a c = true) :
    ∀ l : List α, l.Pairwise S →
      (sortLe le l).Pairwise fun a b => le a b = true ∧ (le b a = true → S a b) := by
  intro l
  induction l with
  | nil =>
    intro _
    simp [sortLe]
  | cons x xs ih =>
    intro h
    rcases List.pairwise_cons.mp h with ⟨hx, hxs⟩
    exact pairwise_insertLe_stable htot htrans (sortLe le xs)
      (fun y hy => hx y ((sortLe_perm le xs).mem_iff.mp hy)) (ih hxs)

theorem ppKeyLe_iff (k1 k2 : String × String) :
    ppKeyLe k1 k2 = true ↔
      (k1.1 < k2.1 ∨ (k1.1 = k2.1 ∧ (k1.2 = k2.2 ∨ k1.2 < k2.2))) := by
  simp [ppKeyLe, strLe]

theorem ppKeyLe_total : ∀ k1 k2 : String × String,
    ppKeyLe k1 k2 = true ∨ ppKeyLe k2 k1 = true := by
  intro k1 k2
  rcases lt_trichotomy k1.1 k2.1 with h | h | h
  · exact Or.inl ((ppKeyLe_iff k1 k2).mpr (Or.inl h))
  · rcases lt_trichotomy k1.2 k2.2 with h2 | h2 | h2
    · exact Or.inl ((ppKeyLe_iff k1 k2).mpr (Or.inr ⟨h, Or.inr h2⟩))
    · exact Or.inl ((ppKeyLe_iff k1 k2).mpr (Or.inr ⟨h, Or.inl h2⟩))
    · exact Or.inr ((ppKeyLe_iff k2 k1).mpr (Or.inr ⟨h.symm, Or.inr h2⟩))
  · exact Or.inr ((ppKeyLe_iff k2 k1).mpr (Or.inl h))

theorem ppKeyLe_trans : ∀ a b c : String × String,
    ppKeyLe a b = true → ppKeyLe b c = true → ppKeyLe a c = true := by
  intro a b c hab hbc
  rw [ppKeyLe_iff] at hab hbc ⊢
  rcases hab with h1 | ⟨h1, h2⟩
  · rcases hbc with h3 | ⟨h3, _⟩
    · exact Or.inl (lt_trans h1 h3)
    · exact Or.inl (by rw [← h3]; exact h1)
  · rcases hbc with h3 | ⟨h3, h4⟩
    · exact Or.inl (by rw [h1]; exact h3)
    · refine Or.inr ⟨by rw [h1, h3], ?_⟩
      rcases h2 with h2 | h2
      · rcases h4 with h4 | h4
        · exact Or.inl (by rw [h2, h4])
        · exact Or.inr (by rw [h2]; exact h4)
      · rcases h4 with h4 | h4
        · exact Or.inr (by rw [← h4]; exact h2)
        · exact Or.inr (lt_trans h2 h4)

theorem ppGrouped_pairwise_key_asc (rows : List EnrichedRow) :
    (ppGrouped rows).Pairwise fun a b =>
      a.category_name < b.category_name ∨
        (a.category_name = b.category_name ∧ a.product_name < b.product_name) := by
  unfold ppGrouped
  rw [List.pairwise_map]
  have hperm := sortLe_perm ppKeyLe ((rows.filterMap ppKey).dedup)
  have hnd : (sortLe ppKeyLe ((rows.filterMap ppKey).dedup)).Nodup :=
    hperm.nodup_iff.mpr (List.nodup_dedup _)
  have hpw := pairwise_sortLe ppKeyLe_total ppKeyLe_trans ((rows.filterMap ppKey).dedup)
  refine (hpw.and hnd).imp ?_
  intro k1 k2 hk
  rcases hk with ⟨hle, hne⟩
  rw [ppKeyLe_iff] at hle
  rcases hle with h | ⟨h1, h2⟩
  · exact Or.inl h
  · rcases h2 with h2 | h2
    · exact absurd (Prod.ext h1 h2) hne
    · exact Or.inr ⟨h1, h2⟩

